import Mathlib

/-!
Shallow embedding of `src/extraction.py`: an OpenStreetMap point-of-interest
extraction pipeline.  The file models the three components of the program —
`clean_name` (name normalizer), `extract_amenities_for_place` (region
extractor) and `extract_for_provinces` (batch driver) — together with the
Python string operations they use, and proves the behavioural claims made
by the specification.
-/

set_option autoImplicit false

namespace OsmExtract

/-! ### Python string primitives

The model works on `List Char` and repacks into `String` at the edges.
Each definition mirrors a specific Python `str` method used by the source.
-/

/-- The ASCII whitespace characters stripped by the Python method `str.strip()`
and split on by `str.split()`. -/
def pySpace (c : Char) : Bool :=
  c = ' ' || c = '\t' || c = '\n' || c = '\r' || c = '\x0b' || c = '\x0c'

/-- Python `str.strip()`: drop leading and trailing whitespace. -/
def pyStrip (l : List Char) : List Char :=
  ((l.dropWhile pySpace).reverse.dropWhile pySpace).reverse

/-- Python `s.replace(",", "")`: remove every comma. -/
def filterComma (l : List Char) : List Char :=
  l.filter (fun c => !(c = ','))

/-- Python `s.replace("/", "_")`. -/
def mapSlash (l : List Char) : List Char :=
  l.map (fun c => if c = '/' then '_' else c)

/-- Python `s.replace(" ", "_")`. -/
def mapSpace (l : List Char) : List Char :=
  l.map (fun c => if c = ' ' then '_' else c)

/-- Body of `clean_name` on character lists:
`s.replace(",", "").replace("/", "_").strip().replace(" ", "_")`. -/
def cleanList (l : List Char) : List Char :=
  mapSpace (pyStrip (mapSlash (filterComma l)))

/-- Model of `clean_name` (extraction.py line 11): make a string safe for file names. -/
def clean_name (s : String) : String :=
  ⟨cleanList s.data⟩

/-- Python `str.split()` with no argument: split on whitespace runs,
discarding empty pieces.  `acc` holds the current word reversed. -/
def wordsAux : List Char → List Char → List (List Char)
  | [], acc => if acc.isEmpty then [] else [acc.reverse]
  | c :: cs, acc =>
    if pySpace c then
      if acc.isEmpty then wordsAux cs [] else acc.reverse :: wordsAux cs []
    else wordsAux cs (c :: acc)

/-- Python `" ".join(words)`. -/
def joinWords : List (List Char) → List Char
  | [] => []
  | w :: ws => match ws with
    | [] => w
    | _ :: _ => w ++ ' ' :: joinWords ws

/-- Model of the expression joining `place_name.strip().split()` with single
spaces (extraction.py line 22):
collapse internal whitespace runs to single spaces. -/
def normalizeSpaces (s : String) : String :=
  ⟨joinWords (wordsAux (pyStrip s.data) [])⟩

/-- Model of the call removing commas from `output_folder`
(extraction.py line 18). -/
def stripCommas (s : String) : String :=
  ⟨filterComma s.data⟩

/-- Python `s.replace(pat, rep)` scan for nonempty `pat`: left to right,
non-overlapping.  `skip` counts matched characters still to consume
without emitting. -/
def replAux (pat rep : List Char) : Nat → List Char → List Char
  | _ + 1, [] => []
  | n + 1, _ :: cs => replAux pat rep n cs
  | 0, [] => []
  | 0, c :: cs =>
    if pat.isPrefixOf (c :: cs) then rep ++ replAux pat rep (pat.length - 1) cs
    else c :: replAux pat rep 0 cs

/-- Python `s.replace(pat, rep)` for a nonempty pattern. -/
def replaceStr (s pat rep : String) : String :=
  ⟨replAux pat.data rep.data 0 s.data⟩

/-- POSIX `os.path.dirname`: the part before the last `/`, with trailing
slashes stripped unless the result is all slashes; `""` when there is no
slash. -/
def dirname (s : String) : String :=
  let l := s.data
  if '/' ∈ l then
    let head := (l.reverse.dropWhile (fun c => !(c = '/'))).reverse
    if head.all (fun c => c = '/') then ⟨head⟩
    else ⟨(head.reverse.dropWhile (fun c => c = '/')).reverse⟩
  else ""

/-- POSIX `os.path.join(a, b)` for the two-argument form used by the
source. -/
def joinPath (a b : String) : String :=
  if b.data.head? = some '/' then b
  else if a = "" then b
  else if a.data.getLast? = some '/' then a ++ b
  else a ++ "/" ++ b

/-! ### Data model

A `Feature` is one row of the GeoDataFrame returned by
`ox.features_from_place`: a geometry and named attribute cells.  A missing
or NaN cell reads as `Value.null`.  Column presence is tracked at the
collection level, as in pandas. -/

/-- An attribute cell value.  `null` stands for a missing value / NaN. -/
inductive Value
  | null
  | str (s : String)
  | int (n : Int)
deriving DecidableEq

/-- A geometry, reduced to what the pipeline inspects: its shape class
and, for points, its coordinates. -/
inductive Geometry
  | point (x y : Int)
  | line
  | polygon
deriving DecidableEq

/-- One feature record (one GeoDataFrame row). -/
structure Feature where
  geometry : Option Geometry
  attrs : List (String × Value)
deriving DecidableEq

/-- Read an attribute cell; an absent key is a missing value (NaN). -/
def Feature.get (r : Feature) (k : String) : Value :=
  match List.lookup k r.attrs with
  | some v => v
  | none => Value.null

/-- Overwrite or append an attribute cell, as pandas column assignment
does row-wise. -/
def setAttr (attrs : List (String × Value)) (k : String) (v : Value) :
    List (String × Value) :=
  if attrs.any (fun kv => kv.1 = k) then
    attrs.map (fun kv => if kv.1 = k then (k, v) else kv)
  else attrs ++ [(k, v)]

/-- A GeoDataFrame: its column names and its rows. -/
structure FeatureCollection where
  columns : List String
  rows : List Feature
deriving DecidableEq

/-- A category-value selector from the tags dictionary: Python `True`, a
single string, a list/tuple of strings, or any other value. -/
inductive Selector
  | anyValue
  | eqStr (s : String)
  | inList (ss : List String)
  | other
deriving DecidableEq

/-! ### Pipeline stages of `extract_amenities_for_place` -/

/-- Whether the geometry of a row is a `Point` (a null geometry has no
geometry type). -/
def isPointGeom (r : Feature) : Bool :=
  match r.geometry with
  | some (Geometry.point _ _) => true
  | _ => false

/-- Geometry-type filter (extraction.py lines 42-51): when the geometry
column exists and at least one row is a `Point`, keep only `Point` rows;
otherwise keep the collection unchanged. -/
def geomFilter (g : FeatureCollection) : FeatureCollection :=
  if "geometry" ∈ g.columns then
    if g.rows.any isPointGeom then
      { g with rows := g.rows.filter isPointGeom }
    else g
  else g

/-- Set the `latitude`/`longitude` cells of a row from a point geometry. -/
def setLatLon (r : Feature) : Feature :=
  match r.geometry with
  | some (Geometry.point x y) =>
    { r with attrs := setAttr (setAttr r.attrs "latitude" (Value.int y)) "longitude" (Value.int x) }
  | _ => r

/-- Append a column name if it is not already present, as pandas column
assignment does. -/
def addColumn (cols : List String) (c : String) : List String :=
  if c ∈ cols then cols else cols ++ [c]

/-- Coordinate extraction (extraction.py lines 54-58): drop rows with a
null geometry, then read `geometry.y`/`geometry.x` into new columns.
GeoPandas raises a `ValueError` (uncaught in the source) when a remaining
geometry is not a `Point`; that raise is the `error` case. -/
def coordExtract (g : FeatureCollection) : Except Unit FeatureCollection :=
  if "geometry" ∈ g.columns then
    let kept := g.rows.filter (fun r => r.geometry.isSome)
    if kept.all isPointGeom then
      Except.ok { columns := addColumn (addColumn g.columns "latitude") "longitude",
                  rows := kept.map setLatLon }
    else Except.error ()
  else Except.ok g

/-- Core of the pandas call drop_duplicates with subset osmid: keep a row only when its key
has not been seen before (first occurrence wins, order preserved). -/
def dropDupsBy (key : Feature → Value) : List Value → List Feature → List Feature
  | _, [] => []
  | seen, r :: rs =>
    if key r ∈ seen then dropDupsBy key seen rs
    else r :: dropDupsBy key (key r :: seen) rs

/-- Deduplication stage (extraction.py lines 60-64): drop duplicate rows
by `osmid` when that column exists, otherwise leave the collection
unchanged. -/
def dedupOsmid (g : FeatureCollection) : FeatureCollection :=
  if "osmid" ∈ g.columns then
    { g with rows := dropDupsBy (fun r => r.get "osmid") [] g.rows }
  else g

/-- Whether a cell value is a member of a list of strings, as pandas
`isin` decides it for a list of strings. -/
def valueIn (v : Value) (ss : List String) : Bool :=
  match v with
  | Value.str s => s ∈ ss
  | _ => false

/-- Per-category subset construction (extraction.py lines 91-99):
boolean-true selector keeps non-null cells, a string selector keeps equal
cells, a list selector keeps member cells, anything else yields an empty
frame with the same columns. -/
def subsetFor (values : Selector) (key : String) (g : FeatureCollection) :
    FeatureCollection :=
  match values with
  | Selector.anyValue =>
    { g with rows := g.rows.filter (fun r => decide (r.get key ≠ Value.null)) }
  | Selector.eqStr s =>
    { g with rows := g.rows.filter (fun r => decide (r.get key = Value.str s)) }
  | Selector.inList ss =>
    { g with rows := g.rows.filter (fun r => valueIn (r.get key) ss) }
  | Selector.other =>
    { columns := g.columns, rows := [] }

/-! ### Effects and the external world

The observable behaviour of the extractor is a trace of successful filesystem
effects plus its return value; exceptions escaping the function are the
`Except.error` case.  The external collaborators (`os.makedirs`, the
OSMnx query, `to_crs`, and the two writers) are a `World` parameter. -/

/-- One successful side effect of the pipeline. -/
inductive Effect
  | mkdir (path : String)
  | query (place : String)
  | write (path : String)
deriving DecidableEq

/-- Equality of `Except` values is decidable componentwise. -/
instance exceptDecEq {ε α : Type} [DecidableEq ε] [DecidableEq α] :
    DecidableEq (Except ε α)
  | Except.error e, Except.error f =>
    match decEq e f with
    | isTrue h => isTrue (by rw [h])
    | isFalse h => isFalse (fun hc => h (Except.error.inj hc))
  | Except.error _, Except.ok _ => isFalse (fun hc => Except.noConfusion hc)
  | Except.ok _, Except.error _ => isFalse (fun hc => Except.noConfusion hc)
  | Except.ok a, Except.ok b =>
    match decEq a b with
    | isTrue h => isTrue (by rw [h])
    | isFalse h => isFalse (fun hc => h (Except.ok.inj hc))

/-- Outcome of `ox.features_from_place`. -/
inductive QueryResult
  | raises
  | noneResult
  | collection (g : FeatureCollection)

/-- The external collaborators.  `mkdirFails p` means `os.makedirs(p)`
raises; `writeFails p` means the write to `p` raises (both raises are
caught except the directory creation at extraction.py line 19);
`reproject` is `to_crs` (`none` when it raises); `query` is
`features_from_place`. -/
structure World where
  mkdirFails : String → Bool
  writeFails : String → Bool
  reproject : FeatureCollection → Option FeatureCollection
  query : String → QueryResult

/-- One guarded write (extraction.py lines 71-75 etc.): `makedirs` on the
dirname (or the output folder when the dirname is empty), then the write;
each failure is caught and only suppresses the rest of this block. -/
def tryWrite (w : World) (folder path : String) : List Effect :=
  let d := if dirname path = "" then folder else dirname path
  if w.mkdirFails d then []
  else Effect.mkdir d :: (if w.writeFails path then [] else [Effect.write path])

/-- Per-category export loop (extraction.py lines 86-120), returning its
effect trace. -/
def tagsTrace (w : World) (folder place_short : String) (g : FeatureCollection) :
    List (String × Selector) → List Effect
  | [] => []
  | (key, values) :: rest =>
    (if key ∈ g.columns then
      let subset := subsetFor values key g
      if subset.rows.isEmpty then []
      else
        let tag_short := clean_name key
        let fname_geojson := place_short ++ "_" ++ tag_short ++ ".geojson"
        tryWrite w folder (joinPath folder fname_geojson) ++
          tryWrite w folder (joinPath folder (replaceStr fname_geojson ".geojson" ".csv"))
    else []) ++ tagsTrace w folder place_short g rest

/-- Whether a query outcome is the "no result" case of extraction.py
lines 25-33: the call raised, returned `None`, or returned an empty
frame. -/
def queryNoResult (q : QueryResult) : Bool :=
  match q with
  | QueryResult.raises => true
  | QueryResult.noneResult => true
  | QueryResult.collection g => g.rows.isEmpty

/-- Model of `extract_amenities_for_place` (extraction.py lines 16-122).  Returns
the Python return value (`none` for the `return None` paths, the final
frame otherwise) and the effect trace; `Except.error` is an exception
escaping the function (the uncaught `os.makedirs` at line 19, or the
GeoPandas coordinate raise at line 57). -/
def extract_amenities_for_place (w : World) (place_name : String)
    (tags_dict : List (String × Selector)) (output_folder : String) :
    Except Unit (Option FeatureCollection) × List Effect :=
  let folder := stripCommas output_folder
  if w.mkdirFails folder then (Except.error (), [])
  else
    let query_place := normalizeSpaces place_name
    let tr1 := [Effect.mkdir folder, Effect.query query_place]
    match w.query query_place with
    | QueryResult.raises => (Except.ok none, tr1)
    | QueryResult.noneResult => (Except.ok none, tr1)
    | QueryResult.collection g0 =>
      if g0.rows.isEmpty then (Except.ok none, tr1)
      else
        let g1 := match w.reproject g0 with
          | some g => g
          | none => g0
        match coordExtract (geomFilter g1) with
        | Except.error _ => (Except.error (), tr1)
        | Except.ok g3 =>
          let gdf_all := dedupOsmid g3
          let place_short := clean_name query_place
          let combined_fname_geo := place_short ++ "_all_amenities.geojson"
          let trCombined :=
            tryWrite w folder (joinPath folder combined_fname_geo) ++
              tryWrite w folder (joinPath folder (replaceStr combined_fname_geo ".geojson" ".csv"))
          (Except.ok (some gdf_all),
            tr1 ++ trCombined ++ tagsTrace w folder place_short gdf_all tags_dict)

/-- Model of `extract_for_provinces` (extraction.py lines 125-130): derive a
per-region folder and run the extractor; there is no exception handler
around the call, so an escaping exception aborts the remaining regions. -/
def extract_for_provinces (w : World) (provinces_list : List String)
    (tags_dict : List (String × Selector)) (output_root_folder : String) :
    Except Unit Unit × List Effect :=
  match provinces_list with
  | [] => (Except.ok (), [])
  | prov :: rest =>
    let folder := joinPath output_root_folder (clean_name prov)
    let res := extract_amenities_for_place w prov tags_dict folder
    match res.1 with
    | Except.error e => (Except.error e, res.2)
    | Except.ok _ =>
      let res2 := extract_for_provinces w rest tags_dict output_root_folder
      (res2.1, res.2 ++ res2.2)

/-! ### Concrete fixtures used by witnesses and counterexamples -/

/-- A point feature with an identifier and a non-null `amenity` cell. -/
def rowW : Feature :=
  { geometry := some (Geometry.point 0 0),
    attrs := [("osmid", Value.int 1), ("amenity", Value.str "cafe")] }

/-- A one-row collection whose single `amenity` cell is non-null: the
boolean-true selector keeps every row of it. -/
def gWhole : FeatureCollection :=
  { columns := ["geometry", "osmid", "amenity"], rows := [rowW] }

/-- A collection with a geometry column and no point geometries. -/
def gPolyOnly : FeatureCollection :=
  { columns := ["geometry"],
    rows := [{ geometry := some Geometry.polygon, attrs := [] }] }

/-- The collection `gWhole` with its columns removed. -/
def gNoCols : FeatureCollection :=
  { columns := [], rows := gWhole.rows }

/-- A world whose query always raises and whose filesystem never fails. -/
def wOk : World :=
  { mkdirFails := fun _ => false, writeFails := fun _ => false,
    reproject := fun g => some g, query := fun _ => QueryResult.raises }

/-- A minimal non-empty query result: one point feature. -/
def gSample : FeatureCollection :=
  { columns := ["geometry"],
    rows := [{ geometry := some (Geometry.point 1 2), attrs := [] }] }

/-- A world whose query always returns `gSample` and whose filesystem
never fails. -/
def wColl : World :=
  { mkdirFails := fun _ => false, writeFails := fun _ => false,
    reproject := fun g => some g, query := fun _ => QueryResult.collection gSample }

/-- A world where creating the directory `root/A` raises (as `os.makedirs`
can) and every query raises. -/
def wBad : World :=
  { mkdirFails := fun p => p = "root/A", writeFails := fun _ => false,
    reproject := fun g => some g, query := fun _ => QueryResult.raises }

/-! ### Lemmas about the Python string primitives -/

theorem pyStrip_sublist (l : List Char) : List.Sublist (pyStrip l) l := by
  unfold pyStrip
  have h1 : List.Sublist ((l.dropWhile pySpace).reverse.dropWhile pySpace).reverse
      (l.dropWhile pySpace).reverse.reverse :=
    List.Sublist.reverse (List.dropWhile_sublist pySpace)
  rw [List.reverse_reverse] at h1
  exact h1.trans (List.dropWhile_sublist pySpace)

theorem mem_of_mem_pyStrip {c : Char} {l : List Char} (h : c ∈ pyStrip l) : c ∈ l :=
  List.Sublist.mem h (pyStrip_sublist l)

theorem mem_cleanList {c : Char} {l : List Char} (h : c ∈ cleanList l) :
    c ≠ ',' ∧ c ≠ '/' ∧ c ≠ ' ' := by
  unfold cleanList mapSpace at h
  obtain ⟨b, hb, rfl⟩ := List.mem_map.mp h
  have hb2 := mem_of_mem_pyStrip hb
  unfold mapSlash at hb2
  obtain ⟨a, ha, rfl⟩ := List.mem_map.mp hb2
  unfold filterComma at ha
  have ha2 := (List.mem_filter.mp ha).2
  have hane : a ≠ ',' := by simpa using ha2
  by_cases h1 : a = '/'
  · rw [if_pos h1]
    decide
  · rw [if_neg h1]
    by_cases h2 : a = ' '
    · rw [if_pos h2]
      decide
    · rw [if_neg h2]
      exact ⟨hane, h1, h2⟩

theorem cleanList_no_comma (l : List Char) : ',' ∉ cleanList l :=
  fun h => (mem_cleanList h).1 rfl

theorem cleanList_no_slash (l : List Char) : '/' ∉ cleanList l :=
  fun h => (mem_cleanList h).2.1 rfl

theorem cleanList_no_space (l : List Char) : ' ' ∉ cleanList l :=
  fun h => (mem_cleanList h).2.2 rfl

theorem dropWhile_head_false {α : Type} {p : α → Bool} {c : α} :
    ∀ {l t : List α}, l.dropWhile p = c :: t → p c = false := by
  intro l
  induction l with
  | nil => intro t h; simp [List.dropWhile] at h
  | cons a as ih =>
    intro t h
    rw [List.dropWhile_cons] at h
    by_cases hp : p a = true
    · rw [if_pos hp] at h
      exact ih h
    · rw [if_neg hp] at h
      cases h
      simpa using hp

theorem head?_dropWhile_false {α : Type} {p : α → Bool} {l : List α} {c : α}
    (h : (l.dropWhile p).head? = some c) : p c = false := by
  cases hd : l.dropWhile p with
  | nil => rw [hd] at h; simp at h
  | cons x t =>
    rw [hd] at h
    simp at h
    subst h
    exact dropWhile_head_false hd

theorem getLast?_dropWhile {α : Type} {p : α → Bool} {w : List α} {c : α}
    (h : (w.dropWhile p).getLast? = some c) : w.getLast? = some c := by
  have ha := List.takeWhile_append_dropWhile p w
  have hne : w.dropWhile p ≠ [] := by
    intro he
    rw [he] at h
    simp at h
  rw [← ha, List.getLast?_append_of_ne_nil _ hne]
  exact h

theorem pyStrip_head_false {l : List Char} {c : Char}
    (h : (pyStrip l).head? = some c) : pySpace c = false := by
  unfold pyStrip at h
  rw [List.head?_reverse] at h
  have h2 := getLast?_dropWhile h
  rw [List.getLast?_reverse] at h2
  exact head?_dropWhile_false h2

theorem pyStrip_getLast_false {l : List Char} {c : Char}
    (h : (pyStrip l).getLast? = some c) : pySpace c = false := by
  unfold pyStrip at h
  rw [List.getLast?_reverse] at h
  exact head?_dropWhile_false h

theorem pyStrip_eq_self {l : List Char}
    (h1 : ∀ c, l.head? = some c → pySpace c = false)
    (h2 : ∀ c, l.getLast? = some c → pySpace c = false) : pyStrip l = l := by
  unfold pyStrip
  have e1 : l.dropWhile pySpace = l := by
    cases l with
    | nil => rfl
    | cons a as =>
      rw [List.dropWhile_cons, h1 a rfl]
      simp
  rw [e1]
  have e2 : l.reverse.dropWhile pySpace = l.reverse := by
    cases hr : l.reverse with
    | nil => rfl
    | cons a as =>
      have hla : l.getLast? = some a := by
        rw [← List.head?_reverse, hr]
        rfl
      rw [List.dropWhile_cons, h2 a hla]
      simp
  rw [e2, List.reverse_reverse]

theorem map_id_on {α : Type} {f : α → α} :
    ∀ {l : List α}, (∀ a ∈ l, f a = a) → l.map f = l := by
  intro l
  induction l with
  | nil => intro _; rfl
  | cons a as ih =>
    intro h
    rw [List.map_cons, h a (List.mem_cons_self a as),
      ih fun b hb => h b (List.mem_cons_of_mem a hb)]

theorem cleanList_idem (l : List Char) : cleanList (cleanList l) = cleanList l := by
  have s1 : filterComma (cleanList l) = cleanList l := by
    unfold filterComma
    apply List.filter_eq_self.mpr
    intro a ha
    simpa using (mem_cleanList ha).1
  have s2 : mapSlash (cleanList l) = cleanList l := by
    unfold mapSlash
    apply map_id_on
    intro a ha
    rw [if_neg (mem_cleanList ha).2.1]
  have s3 : pyStrip (cleanList l) = cleanList l := by
    apply pyStrip_eq_self
    · intro c hc
      unfold cleanList mapSpace at hc
      rw [List.head?_map] at hc
      cases hu : (pyStrip (mapSlash (filterComma l))).head? with
      | none => rw [hu] at hc; simp at hc
      | some b =>
        rw [hu] at hc
        simp at hc
        by_cases hb : b = ' '
        · rw [← hc, if_pos hb]
          decide
        · rw [← hc, if_neg hb]
          exact pyStrip_head_false hu
    · intro c hc
      unfold cleanList mapSpace at hc
      rw [List.getLast?_map] at hc
      cases hu : (pyStrip (mapSlash (filterComma l))).getLast? with
      | none => rw [hu] at hc; simp at hc
      | some b =>
        rw [hu] at hc
        simp at hc
        by_cases hb : b = ' '
        · rw [← hc, if_pos hb]
          decide
        · rw [← hc, if_neg hb]
          exact pyStrip_getLast_false hu
  have s4 : mapSpace (cleanList l) = cleanList l := by
    unfold mapSpace
    apply map_id_on
    intro a ha
    rw [if_neg (mem_cleanList ha).2.2]
  show mapSpace (pyStrip (mapSlash (filterComma (cleanList l)))) = cleanList l
  rw [s1, s2, s3, s4]

/-- C6: for every input string, the output of the Name Normalizer contains no
comma and no path-separator character, and applying it to its own output
returns it unchanged. -/
theorem clean_name_safe_and_idempotent (s : String) :
    (',' : Char) ∉ (clean_name s).data ∧ ('/' : Char) ∉ (clean_name s).data ∧
      clean_name (clean_name s) = clean_name s := by
  refine ⟨cleanList_no_comma _, cleanList_no_slash _, ?_⟩
  show (⟨cleanList (cleanList s.data)⟩ : String) = ⟨cleanList s.data⟩
  rw [cleanList_idem]

/-! ### Deduplication lemmas -/

theorem dropDupsBy_sublist (key : Feature → Value) :
    ∀ (seen : List Value) (l : List Feature),
      List.Sublist (dropDupsBy key seen l) l := by
  intro seen l
  induction l generalizing seen with
  | nil => simp [dropDupsBy]
  | cons r rs ih =>
    simp only [dropDupsBy]
    by_cases h : key r ∈ seen
    · rw [if_pos h]
      exact (ih seen).cons r
    · rw [if_neg h]
      exact (ih (key r :: seen)).cons₂ r

theorem dropDupsBy_filter_of_mem (key : Feature → Value) (v : Value) :
    ∀ (seen : List Value) (l : List Feature), v ∈ seen →
      (dropDupsBy key seen l).filter (fun r => decide (key r = v)) = [] := by
  intro seen l
  induction l generalizing seen with
  | nil => intro _; simp [dropDupsBy]
  | cons r rs ih =>
    intro hv
    simp only [dropDupsBy]
    by_cases h : key r ∈ seen
    · rw [if_pos h]
      exact ih seen hv
    · rw [if_neg h, List.filter_cons]
      have hne : decide (key r = v) = false := by
        apply decide_eq_false
        intro he
        exact h (by rwa [he])
      rw [hne]
      simp only [Bool.false_eq_true, if_false]
      exact ih (key r :: seen) (List.mem_cons_of_mem _ hv)

theorem dropDupsBy_filter_of_not_mem (key : Feature → Value) (v : Value) :
    ∀ (seen : List Value) (l : List Feature), v ∉ seen →
      (dropDupsBy key seen l).filter (fun r => decide (key r = v)) =
        (l.filter (fun r => decide (key r = v))).take 1 := by
  intro seen l
  induction l generalizing seen with
  | nil => intro _; simp [dropDupsBy]
  | cons r rs ih =>
    intro hv
    simp only [dropDupsBy]
    by_cases h : key r ∈ seen
    · rw [if_pos h, List.filter_cons]
      have hne : decide (key r = v) = false := by
        apply decide_eq_false
        intro he
        exact hv (by rwa [he] at h)
      rw [hne]
      simp only [Bool.false_eq_true, if_false]
      exact ih seen hv
    · rw [if_neg h, List.filter_cons, List.filter_cons]
      by_cases he : key r = v
      · rw [decide_eq_true he]
        simp only [if_true]
        rw [dropDupsBy_filter_of_mem key v _ rs (by rw [← he]; exact List.mem_cons_self _ _)]
        simp
      · rw [decide_eq_false he]
        simp only [Bool.false_eq_true, if_false]
        refine ih (key r :: seen) ?_
        intro hm
        rcases List.mem_cons.mp hm with h1 | h1
        · exact he h1.symm
        · exact hv h1

/-- C4: with an `osmid` column, deduplication keeps exactly one record per
distinct identifier — the first occurrence in input order — and preserves
the relative order of retained records; without the column the record
count is unchanged. -/
theorem dedup_keeps_first_occurrence_per_osmid (g : FeatureCollection) :
    ("osmid" ∈ g.columns →
      List.Sublist (dedupOsmid g).rows g.rows ∧
      ∀ v ∈ g.rows.map (fun r => r.get "osmid"),
        (dedupOsmid g).rows.filter (fun r => decide (r.get "osmid" = v)) =
          (g.rows.filter (fun r => decide (r.get "osmid" = v))).take 1 ∧
        ((dedupOsmid g).rows.filter (fun r => decide (r.get "osmid" = v))).length = 1) ∧
    ("osmid" ∉ g.columns → (dedupOsmid g).rows.length = g.rows.length) := by
  constructor
  · intro hcol
    have hd : (dedupOsmid g).rows = dropDupsBy (fun r => r.get "osmid") [] g.rows := by
      unfold dedupOsmid
      rw [if_pos hcol]
    constructor
    · rw [hd]
      exact dropDupsBy_sublist _ [] _
    · intro v hv
      have hf := dropDupsBy_filter_of_not_mem (fun r => r.get "osmid") v [] g.rows
        (List.not_mem_nil v)
      rw [hd, hf]
      refine ⟨rfl, ?_⟩
      obtain ⟨r, hr, hrv⟩ := List.mem_map.mp hv
      have hmem : r ∈ g.rows.filter (fun r => decide (r.get "osmid" = v)) :=
        List.mem_filter.mpr ⟨hr, decide_eq_true hrv⟩
      cases hl : g.rows.filter (fun r => decide (r.get "osmid" = v)) with
      | nil => rw [hl] at hmem; cases hmem
      | cons a t => simp
  · intro hcol
    unfold dedupOsmid
    rw [if_neg hcol]

/-- C4 witness: both cases of the deduplication theorem at concrete
collections — `gWhole` (with an `osmid` column, instantiated at the
identifier value `1`) and `gNoCols` (without the column). -/
theorem dedup_keeps_first_occurrence_per_osmid_witness :
    List.Sublist (dedupOsmid gWhole).rows gWhole.rows ∧
    ((dedupOsmid gWhole).rows.filter (fun r => decide (r.get "osmid" = Value.int 1)) =
      (gWhole.rows.filter (fun r => decide (r.get "osmid" = Value.int 1))).take 1 ∧
      ((dedupOsmid gWhole).rows.filter (fun r => decide (r.get "osmid" = Value.int 1))).length = 1) ∧
    (dedupOsmid gNoCols).rows.length = gNoCols.rows.length :=
  ⟨((dedup_keeps_first_occurrence_per_osmid gWhole).1 (by decide)).1,
   ((dedup_keeps_first_occurrence_per_osmid gWhole).1 (by decide)).2 (Value.int 1) (by decide),
   (dedup_keeps_first_occurrence_per_osmid gNoCols).2 (by decide)⟩

/-! ### Subset-construction theorems -/

/-- C3: for a category key present in the columns, the per-category subset
is exactly the rows with a non-null cell (boolean-true selector), the rows
with an equal cell (string selector), the rows whose cell is a member
(sequence selector), and empty for any other selector type. -/
theorem subset_matches_selector_semantics (g : FeatureCollection) (key : String)
    (h : key ∈ g.columns) :
    (∀ r, r ∈ (subsetFor Selector.anyValue key g).rows ↔
        r ∈ g.rows ∧ r.get key ≠ Value.null) ∧
    (∀ s r, r ∈ (subsetFor (Selector.eqStr s) key g).rows ↔
        r ∈ g.rows ∧ r.get key = Value.str s) ∧
    (∀ ss r, r ∈ (subsetFor (Selector.inList ss) key g).rows ↔
        r ∈ g.rows ∧ ∃ t, r.get key = Value.str t ∧ t ∈ ss) ∧
    (subsetFor Selector.other key g).rows = [] := by
  refine ⟨?_, ?_, ?_, rfl⟩
  · intro r
    simp [subsetFor, List.mem_filter]
  · intro s r
    simp [subsetFor, List.mem_filter]
  · intro ss r
    constructor
    · intro hm
      obtain ⟨hr, hp⟩ := List.mem_filter.mp hm
      refine ⟨hr, ?_⟩
      cases hv : r.get key with
      | null => rw [hv] at hp; simp [valueIn] at hp
      | str t =>
        rw [hv] at hp
        simp [valueIn] at hp
        exact ⟨t, rfl, hp⟩
      | int n => rw [hv] at hp; simp [valueIn] at hp
    · rintro ⟨hr, t, ht, hts⟩
      refine List.mem_filter.mpr ⟨hr, ?_⟩
      rw [ht]
      simp [valueIn, hts]

/-- C3 witness: the selector-semantics theorem applied to `gWhole` at its
`amenity` column and its single row. -/
theorem subset_matches_selector_semantics_witness :
    "amenity" ∈ gWhole.columns ∧
    (rowW ∈ (subsetFor Selector.anyValue "amenity" gWhole).rows ↔
        rowW ∈ gWhole.rows ∧ rowW.get "amenity" ≠ Value.null) :=
  ⟨by decide, (subset_matches_selector_semantics gWhole "amenity" (by decide)).1 rowW⟩

/-- C8 counterexample: a post-filter, post-dedup collection (a fixed point
of both stages) whose boolean-true subset equals the whole collection, so
the subset is not a strict subset. -/
theorem subset_can_equal_whole_collection :
    geomFilter gWhole = gWhole ∧ dedupOsmid gWhole = gWhole ∧
      subsetFor Selector.anyValue "amenity" gWhole = gWhole ∧
      gWhole.rows ≠ [] := by
  decide

/-- C8 amended: the per-category subset is always a (not necessarily
strict) sub-collection of the filtered/deduplicated collection: its rows
are a sublist and its columns are unchanged. -/
theorem subset_rows_sublist_of_collection (values : Selector) (key : String)
    (g : FeatureCollection) :
    List.Sublist (subsetFor values key g).rows g.rows ∧
    (subsetFor values key g).columns = g.columns := by
  cases values with
  | anyValue => exact ⟨List.filter_sublist _, rfl⟩
  | eqStr s => exact ⟨List.filter_sublist _, rfl⟩
  | inList ss => exact ⟨List.filter_sublist _, rfl⟩
  | other => exact ⟨List.nil_sublist _, rfl⟩

/-! ### Geometry-filter theorem -/

/-- C5: on a collection with a geometry column, the geometry-type filter
keeps exactly the point-geometry records when at least one exists, and
leaves the collection unchanged when none exists. -/
theorem geom_filter_keeps_points_or_all (g : FeatureCollection)
    (hg : "geometry" ∈ g.columns) :
    (g.rows.any isPointGeom = true →
      (geomFilter g).rows = g.rows.filter isPointGeom ∧
      ∀ r, r ∈ (geomFilter g).rows ↔ r ∈ g.rows ∧ isPointGeom r = true) ∧
    (g.rows.any isPointGeom = false → geomFilter g = g) := by
  constructor
  · intro h
    have he : (geomFilter g).rows = g.rows.filter isPointGeom := by
      unfold geomFilter
      rw [if_pos hg, if_pos h]
    refine ⟨he, ?_⟩
    intro r
    rw [he]
    exact List.mem_filter
  · intro h
    unfold geomFilter
    rw [if_pos hg, if_neg (by simp [h])]

/-- C5 witness: both cases of the geometry-filter theorem — `gWhole` has a
point row; the polygon-only variant has none. -/
theorem geom_filter_keeps_points_or_all_witness :
    ((geomFilter gWhole).rows = gWhole.rows.filter isPointGeom) ∧
    geomFilter gPolyOnly = gPolyOnly :=
  ⟨((geom_filter_keeps_points_or_all gWhole (by decide)).1 (by decide)).1,
   (geom_filter_keeps_points_or_all gPolyOnly (by decide)).2 (by decide)⟩

/-! ### Trace-shape lemmas for the region extractor -/

theorem write_mem_tryWrite {w : World} {folder path p : String}
    (h : Effect.write p ∈ tryWrite w folder path) : p = path := by
  unfold tryWrite at h
  by_cases h1 : w.mkdirFails (if dirname path = "" then folder else dirname path) = true
  · rw [if_pos h1] at h
    exact absurd h (List.not_mem_nil _)
  · rw [if_neg h1] at h
    rcases List.mem_cons.mp h with h2 | h2
    · exact Effect.noConfusion h2
    · by_cases h3 : w.writeFails path = true
      · rw [if_pos h3] at h2
        exact absurd h2 (List.not_mem_nil _)
      · rw [if_neg h3] at h2
        rcases List.mem_cons.mp h2 with h4 | h4
        · exact Effect.write.inj h4
        · exact absurd h4 (List.not_mem_nil _)

theorem write_mem_tagsTrace {w : World} {folder base : String} {g : FeatureCollection} :
    ∀ {tags : List (String × Selector)} {p : String},
      Effect.write p ∈ tagsTrace w folder base g tags →
      ∃ k, p = joinPath folder (base ++ "_" ++ clean_name k ++ ".geojson") ∨
        p = joinPath folder
          (replaceStr (base ++ "_" ++ clean_name k ++ ".geojson") ".geojson" ".csv") := by
  intro tags
  induction tags with
  | nil =>
    intro p h
    simp [tagsTrace] at h
  | cons kv rest ih =>
    intro p h
    obtain ⟨key, values⟩ := kv
    simp only [tagsTrace] at h
    rcases List.mem_append.mp h with h1 | h1
    · by_cases hc : key ∈ g.columns
      · rw [if_pos hc] at h1
        by_cases hemp : (subsetFor values key g).rows.isEmpty = true
        · rw [if_pos hemp] at h1
          exact absurd h1 (List.not_mem_nil _)
        · rw [if_neg hemp] at h1
          rcases List.mem_append.mp h1 with h2 | h2
          · exact ⟨key, Or.inl (write_mem_tryWrite h2)⟩
          · exact ⟨key, Or.inr (write_mem_tryWrite h2)⟩
      · rw [if_neg hc] at h1
        exact absurd h1 (List.not_mem_nil _)
    · exact ih h1

theorem extract_fail {w : World} {place folder : String}
    {tags : List (String × Selector)}
    (hmk : w.mkdirFails (stripCommas folder) = false)
    (hq : queryNoResult (w.query (normalizeSpaces place)) = true) :
    extract_amenities_for_place w place tags folder =
      (Except.ok none,
        [Effect.mkdir (stripCommas folder), Effect.query (normalizeSpaces place)]) := by
  simp only [extract_amenities_for_place]
  rw [if_neg (by simp [hmk])]
  split
  · rfl
  · rfl
  · rename_i g0 heq
    rw [heq] at hq
    simp only [queryNoResult] at hq
    rw [if_pos hq]

theorem extract_trace_cons (w : World) (place : String)
    (tags : List (String × Selector)) (folder : String)
    (hmk : w.mkdirFails (stripCommas folder) = false) :
    ∃ tl, (extract_amenities_for_place w place tags folder).2 =
      Effect.mkdir (stripCommas folder) :: Effect.query (normalizeSpaces place) :: tl := by
  simp only [extract_amenities_for_place]
  rw [if_neg (by simp [hmk])]
  split
  · exact ⟨[], rfl⟩
  · exact ⟨[], rfl⟩
  · split
    · exact ⟨[], rfl⟩
    · split
      · exact ⟨[], rfl⟩
      · exact ⟨_, rfl⟩

theorem write_mem_extract {w : World} {place folder : String}
    {tags : List (String × Selector)} {p : String}
    (h : Effect.write p ∈ (extract_amenities_for_place w place tags folder).2) :
    (p = joinPath (stripCommas folder)
        (clean_name (normalizeSpaces place) ++ "_all_amenities.geojson") ∨
      p = joinPath (stripCommas folder)
        (replaceStr (clean_name (normalizeSpaces place) ++ "_all_amenities.geojson")
          ".geojson" ".csv")) ∨
    ∃ k, p = joinPath (stripCommas folder)
        (clean_name (normalizeSpaces place) ++ "_" ++ clean_name k ++ ".geojson") ∨
      p = joinPath (stripCommas folder)
        (replaceStr (clean_name (normalizeSpaces place) ++ "_" ++ clean_name k ++ ".geojson")
          ".geojson" ".csv") := by
  simp only [extract_amenities_for_place] at h
  split at h
  · exact absurd h (List.not_mem_nil _)
  · split at h
    · simp at h
    · simp at h
    · split at h
      · simp at h
      · split at h
        · simp at h
        · simp at h
          rcases h with h2 | h2 | h2
          · exact Or.inl (Or.inl (write_mem_tryWrite h2))
          · exact Or.inl (Or.inr (write_mem_tryWrite h2))
          · exact Or.inr (write_mem_tagsTrace h2)

/-! ### Error-handling theorems for the region extractor -/

/-- C2: when the external query raises, returns `None`, or returns an
empty collection, the region extractor returns no result and writes zero
files. -/
theorem no_result_and_no_writes_on_query_failure (w : World) (place : String)
    (tags : List (String × Selector)) (folder : String)
    (hmk : w.mkdirFails (stripCommas folder) = false)
    (hq : queryNoResult (w.query (normalizeSpaces place)) = true) :
    (extract_amenities_for_place w place tags folder).1 = Except.ok none ∧
    ∀ p, Effect.write p ∉ (extract_amenities_for_place w place tags folder).2 := by
  rw [extract_fail hmk hq]
  refine ⟨rfl, ?_⟩
  intro p hp
  simp at hp

/-- C2 witness: the theorem at a world whose query raises for "Nowhere",
with the no-write consequence instantiated at the path the combined
export would have used. -/
theorem no_result_and_no_writes_on_query_failure_witness :
    (extract_amenities_for_place wOk "Nowhere" [] "out").1 = Except.ok none ∧
    Effect.write "out/Nowhere_all_amenities.geojson" ∉
      (extract_amenities_for_place wOk "Nowhere" [] "out").2 :=
  ⟨(no_result_and_no_writes_on_query_failure wOk "Nowhere" [] "out"
      (by decide) (by decide)).1,
   (no_result_and_no_writes_on_query_failure wOk "Nowhere" [] "out"
      (by decide) (by decide)).2 "out/Nowhere_all_amenities.geojson"⟩

/-- C9: the output directory is created (first effect, before the query is
attempted), so it exists even when the query fails or returns nothing and
the extractor returns no result. -/
theorem output_dir_created_before_query (w : World) (place : String)
    (tags : List (String × Selector)) (folder : String)
    (hmk : w.mkdirFails (stripCommas folder) = false) :
    (extract_amenities_for_place w place tags folder).2.take 2 =
      [Effect.mkdir (stripCommas folder), Effect.query (normalizeSpaces place)] ∧
    (queryNoResult (w.query (normalizeSpaces place)) = true →
      (extract_amenities_for_place w place tags folder).1 = Except.ok none ∧
      Effect.mkdir (stripCommas folder) ∈
        (extract_amenities_for_place w place tags folder).2) := by
  obtain ⟨tl, htl⟩ := extract_trace_cons w place tags folder hmk
  constructor
  · rw [htl]
    rfl
  · intro hq
    rw [extract_fail hmk hq]
    exact ⟨rfl, by simp⟩

/-- C9 witness: the theorem at a world whose query raises, with both
hypotheses discharged. -/
theorem output_dir_created_before_query_witness :
    (extract_amenities_for_place wOk "Nowhere" [] "out").2.take 2 =
      [Effect.mkdir (stripCommas "out"), Effect.query (normalizeSpaces "Nowhere")] ∧
    ((extract_amenities_for_place wOk "Nowhere" [] "out").1 = Except.ok none ∧
      Effect.mkdir (stripCommas "out") ∈
        (extract_amenities_for_place wOk "Nowhere" [] "out").2) :=
  ⟨(output_dir_created_before_query wOk "Nowhere" [] "out" (by decide)).1,
   (output_dir_created_before_query wOk "Nowhere" [] "out" (by decide)).2 (by decide)⟩

/-- C10: commas are removed from the output location up front — the
created directory is the comma-stripped path, and every file is written
under the comma-stripped path. -/
theorem paths_use_comma_stripped_folder (w : World) (place : String)
    (tags : List (String × Selector)) (folder : String)
    (hmk : w.mkdirFails (stripCommas folder) = false) :
    (extract_amenities_for_place w place tags folder).2.head? =
      some (Effect.mkdir (stripCommas folder)) ∧
    ∀ p, Effect.write p ∈ (extract_amenities_for_place w place tags folder).2 →
      ∃ f, p = joinPath (stripCommas folder) f := by
  obtain ⟨tl, htl⟩ := extract_trace_cons w place tags folder hmk
  constructor
  · rw [htl]
    rfl
  · intro p hp
    rcases write_mem_extract hp with (h1 | h1) | ⟨k, h1 | h1⟩
    · exact ⟨_, h1⟩
    · exact ⟨_, h1⟩
    · exact ⟨_, h1⟩
    · exact ⟨_, h1⟩

/-- C10 witness: the theorem at an output location containing a comma,
with a world whose query returns data, instantiated at the combined
GeoJSON path actually written (under `outdir`, not `out,dir`). -/
theorem paths_use_comma_stripped_folder_witness :
    (extract_amenities_for_place wColl "Testville" [] "out,dir").2.head? =
      some (Effect.mkdir (stripCommas "out,dir")) ∧
    ∃ f, "outdir/Testville_all_amenities.geojson" = joinPath (stripCommas "out,dir") f :=
  ⟨(paths_use_comma_stripped_folder wColl "Testville" [] "out,dir" (by decide)).1,
   (paths_use_comma_stripped_folder wColl "Testville" [] "out,dir" (by decide)).2
     "outdir/Testville_all_amenities.geojson" (by decide)⟩

/-! ### Batch-driver theorems -/

theorem extract_for_provinces_cons (w : World) (p : String) (rest : List String)
    (tags : List (String × Selector)) (root : String) :
    extract_for_provinces w (p :: rest) tags root =
      match (extract_amenities_for_place w p tags (joinPath root (clean_name p))).1 with
      | Except.error e =>
        (Except.error e, (extract_amenities_for_place w p tags (joinPath root (clean_name p))).2)
      | Except.ok _ =>
        ((extract_for_provinces w rest tags root).1,
          (extract_amenities_for_place w p tags (joinPath root (clean_name p))).2 ++
            (extract_for_provinces w rest tags root).2) := rfl

theorem query_mem_of_not_error (w : World) (place : String)
    (tags : List (String × Selector)) (folder : String)
    (h : (extract_amenities_for_place w place tags folder).1 ≠ Except.error ()) :
    Effect.query (normalizeSpaces place) ∈
      (extract_amenities_for_place w place tags folder).2 := by
  by_cases hmk : w.mkdirFails (stripCommas folder) = true
  · exfalso
    apply h
    simp only [extract_amenities_for_place]
    rw [if_pos hmk]
  · obtain ⟨tl, htl⟩ := extract_trace_cons w place tags folder
      (Bool.not_eq_true _ ▸ hmk)
    rw [htl]
    simp

/-- C1 amended: failures the region extractor handles internally (in
particular a raising external query, which makes it return `None`) do not
stop the batch: when the extraction of no region lets an exception escape, the
driver processes the regions in input order, its trace is the
concatenation of the per-region traces, and every region is queried. -/
theorem batch_queries_every_region_when_no_uncaught_error (w : World)
    (provs : List String) (tags : List (String × Selector)) (root : String)
    (h : ∀ prov ∈ provs,
      (extract_amenities_for_place w prov tags (joinPath root (clean_name prov))).1 ≠
        Except.error ()) :
    (extract_for_provinces w provs tags root).2 =
      (provs.map (fun prov =>
        (extract_amenities_for_place w prov tags (joinPath root (clean_name prov))).2)).flatten ∧
    ∀ prov ∈ provs, Effect.query (normalizeSpaces prov) ∈
      (extract_for_provinces w provs tags root).2 := by
  induction provs with
  | nil =>
    refine ⟨rfl, ?_⟩
    intro prov hp
    cases hp
  | cons p rest ih =>
    have hp := h p (List.mem_cons_self p rest)
    obtain ⟨ihe, ihm⟩ := ih fun q hq => h q (List.mem_cons_of_mem p hq)
    cases hres : (extract_amenities_for_place w p tags (joinPath root (clean_name p))).1 with
    | error e =>
      cases e
      exact absurd hres hp
    | ok v =>
      rw [extract_for_provinces_cons, hres]
      constructor
      · show (extract_amenities_for_place w p tags (joinPath root (clean_name p))).2 ++
            (extract_for_provinces w rest tags root).2 = _
        rw [ihe, List.map_cons, List.flatten_cons]
      · intro q hq
        rcases List.mem_cons.mp hq with rfl | hq2
        · exact List.mem_append_left _ (query_mem_of_not_error w q tags _ hp)
        · exact List.mem_append_right _ (ihm q hq2)

/-- C1 witness: in a world where every query raises but nothing else
fails, both regions of a two-region batch are still queried. -/
theorem batch_queries_every_region_witness :
    Effect.query (normalizeSpaces "Nowhere") ∈
      (extract_for_provinces wOk ["Nowhere", "B"] [] "root").2 ∧
    Effect.query (normalizeSpaces "B") ∈
      (extract_for_provinces wOk ["Nowhere", "B"] [] "root").2 :=
  ⟨(batch_queries_every_region_when_no_uncaught_error wOk ["Nowhere", "B"] [] "root"
      (by decide)).2 "Nowhere" (by decide),
   (batch_queries_every_region_when_no_uncaught_error wOk ["Nowhere", "B"] [] "root"
      (by decide)).2 "B" (by decide)⟩

/-- C1 counterexample: when directory creation for region "A" raises, the
extractor invocation for "A" raises an exception and the driver never
queries the subsequent region "B"; with a working filesystem "B" would
have been queried. -/
theorem batch_stops_after_uncaught_extractor_error :
    (extract_amenities_for_place wBad "A" [] (joinPath "root" (clean_name "A"))).1 =
      Except.error () ∧
    Effect.query (normalizeSpaces "B") ∉
      (extract_for_provinces wBad ["A", "B"] [] "root").2 ∧
    Effect.query (normalizeSpaces "B") ∈
      (extract_for_provinces wOk ["A", "B"] [] "root").2 := by
  decide

/-! ### File-name layout: lemmas and the C7 theorems -/

theorem replAux_append (rep pt : List Char) :
    ∀ (a b : List Char), ('.' : Char) ∉ a →
      replAux ('.' :: pt) rep 0 (a ++ b) = a ++ replAux ('.' :: pt) rep 0 b := by
  intro a
  induction a with
  | nil => intro b _; rfl
  | cons c cs ih =>
    intro b hna
    have hc : ('.' : Char) ≠ c := fun he => hna (by rw [he]; exact List.mem_cons_self c cs)
    simp only [List.cons_append, replAux]
    rw [if_neg (by rw [List.isPrefixOf_cons₂]; simp [hc])]
    simp only [List.append_eq]
    rw [ih b fun hm => hna (List.mem_cons_of_mem c hm)]

theorem replaceStr_append_dot_free (base rest : String)
    (h : ('.' : Char) ∉ base.data) :
    replaceStr (base ++ rest) ".geojson" ".csv" =
      base ++ replaceStr rest ".geojson" ".csv" := by
  apply String.ext
  show replAux (".geojson" : String).data (".csv" : String).data 0
      ((base ++ rest) : String).data =
    (base ++ replaceStr rest ".geojson" ".csv").data
  rw [String.data_append, String.data_append]
  exact replAux_append (".csv" : String).data ("geojson" : String).data
    base.data rest.data h

theorem stripCommas_eq_self (s : String) (h : (',' : Char) ∉ s.data) :
    stripCommas s = s := by
  unfold stripCommas filterComma
  have he : s.data.filter (fun c => !(c = ',')) = s.data := by
    apply List.filter_eq_self.mpr
    intro a ha
    simp
    intro hc
    exact h (hc ▸ ha)
  rw [he]

theorem joinPath_no_comma (a b : String) (ha : (',' : Char) ∉ a.data)
    (hb : (',' : Char) ∉ b.data) : (',' : Char) ∉ (joinPath a b).data := by
  unfold joinPath
  split
  · exact hb
  · split
    · exact hb
    · split
      · rw [String.data_append]
        intro hm
        rcases List.mem_append.mp hm with hm1 | hm1
        · exact ha hm1
        · exact hb hm1
      · rw [String.data_append, String.data_append]
        intro hm
        rcases List.mem_append.mp hm with hm1 | hm1
        · rcases List.mem_append.mp hm1 with hm2 | hm2
          · exact ha hm2
          · simp at hm2
        · exact hb hm1

theorem mem_extract_for_provinces (w : World) (provs : List String)
    (tags : List (String × Selector)) (root : String) (e : Effect)
    (h : e ∈ (extract_for_provinces w provs tags root).2) :
    ∃ prov ∈ provs,
      e ∈ (extract_amenities_for_place w prov tags (joinPath root (clean_name prov))).2 := by
  induction provs with
  | nil => cases h
  | cons p rest ih =>
    rw [extract_for_provinces_cons] at h
    split at h
    · exact ⟨p, List.mem_cons_self p rest, h⟩
    · rcases List.mem_append.mp h with h1 | h1
      · exact ⟨p, List.mem_cons_self p rest, h1⟩
      · obtain ⟨q, hq, hqe⟩ := ih h1
        exact ⟨q, List.mem_cons_of_mem p hq, hqe⟩

/-- C7 amended: files are written under the driver-derived subdirectory
`{root}/{clean_name region}` with base name
`clean_name (normalizeSpaces region)`; the base equals the subdirectory
name for region names that whitespace normalization leaves unchanged (the
`.`-free hypothesis keeps the CSV extension rewrite from touching the
base). -/
theorem write_paths_use_normalized_base_under_subdir (w : World)
    (provs : List String) (tags : List (String × Selector)) (root : String)
    (hroot : (',' : Char) ∉ root.data)
    (hws : ∀ prov ∈ provs, normalizeSpaces prov = prov)
    (hdot : ∀ prov ∈ provs, ('.' : Char) ∉ (clean_name prov).data) :
    ∀ p, Effect.write p ∈ (extract_for_provinces w provs tags root).2 →
      ∃ prov ∈ provs, ∃ s,
        p = joinPath (joinPath root (clean_name prov)) (clean_name prov ++ s) := by
  intro p hp
  obtain ⟨prov, hpe, hmem⟩ := mem_extract_for_provinces w provs tags root _ hp
  refine ⟨prov, hpe, ?_⟩
  have hfold : stripCommas (joinPath root (clean_name prov)) = joinPath root (clean_name prov) :=
    stripCommas_eq_self _ (joinPath_no_comma _ _ hroot (cleanList_no_comma _))
  have hnorm := hws prov hpe
  have hdotp := hdot prov hpe
  rcases write_mem_extract hmem with (h1 | h1) | ⟨k, h1 | h1⟩
  · rw [hfold, hnorm] at h1
    exact ⟨"_all_amenities.geojson", h1⟩
  · rw [hfold, hnorm] at h1
    rw [replaceStr_append_dot_free _ _ hdotp] at h1
    exact ⟨replaceStr "_all_amenities.geojson" ".geojson" ".csv", h1⟩
  · rw [hfold, hnorm] at h1
    refine ⟨"_" ++ (clean_name k ++ ".geojson"), ?_⟩
    rw [h1, String.append_assoc, String.append_assoc]
  · rw [hfold, hnorm] at h1
    rw [String.append_assoc, String.append_assoc,
      replaceStr_append_dot_free _ _ hdotp] at h1
    exact ⟨replaceStr ("_" ++ (clean_name k ++ ".geojson")) ".geojson" ".csv", h1⟩

/-- C7 witness: the amended theorem for region "Testville" under root
"out", instantiated at the combined GeoJSON path actually written. -/
theorem write_paths_use_normalized_base_under_subdir_witness :
    ∃ prov ∈ ["Testville"], ∃ s,
      "out/Testville/Testville_all_amenities.geojson" =
        joinPath (joinPath "out" (clean_name prov)) (clean_name prov ++ s) :=
  write_paths_use_normalized_base_under_subdir wColl ["Testville"] [] "out"
    (by decide) (by decide) (by decide)
    "out/Testville/Testville_all_amenities.geojson" (by decide)

/-- C7 counterexample: for the region name "a  b" (internal double
space), the subdirectory name derived by the driver is `a__b` while the file base name
is `a_b`: the file the claim predicts is never written, and the combined
file that is written uses the whitespace-collapsed base. -/
theorem base_name_differs_from_subdir_on_double_space :
    clean_name "a  b" = "a__b" ∧
    clean_name (normalizeSpaces "a  b") = "a_b" ∧
    Effect.write (joinPath (joinPath "root" (clean_name "a  b"))
        (clean_name "a  b" ++ "_all_amenities.geojson")) ∉
      (extract_for_provinces wColl ["a  b"] [] "root").2 ∧
    Effect.write (joinPath (joinPath "root" (clean_name "a  b"))
        (clean_name (normalizeSpaces "a  b") ++ "_all_amenities.geojson")) ∈
      (extract_for_provinces wColl ["a  b"] [] "root").2 := by
  decide

end OsmExtract
